import Mathlib

/-!
Shallow embedding of the archive core of openSUSE/mcp-archive
(src/internal/archive/archive.go, second `package archive` block).

Strings are Lean `String` (a structure over `List Char` in this toolchain);
Go byte slices are `List UInt8`.  Operating-system effects (symlink
resolution, opening and decoding an archive file, regular-expression
compilation and matching) are modelled by an explicit environment `Env`
of oracles; everything the Go code computes itself (path cleaning,
prefix/suffix tests, depth splitting, the listing and extraction
pipelines) is translated directly.
-/

namespace MCPArchive

/-- Character-level split, modelling Go `strings.Split(s, "/")` for a
one-character separator: `Split("", sep) = [""]`, adjacent separators
produce empty fields. -/
def splitOnChar (c : Char) : List Char → List (List Char)
  | [] => [[]]
  | x :: xs =>
    let r := splitOnChar c xs
    if x = c then [] :: r
    else
      match r with
      | [] => [[x]]
      | h :: t => (x :: h) :: t

/-- Go `strings.HasPrefix(s, pre)`. -/
def goStartsWith (s pre : String) : Bool := pre.data.isPrefixOf s.data

/-- Go `strings.HasSuffix(s, suf)`. -/
def goEndsWith (s suf : String) : Bool := suf.data.reverse.isPrefixOf s.data.reverse

/-- Go `path/filepath.IsAbs` on a unix system. -/
def goIsAbs (p : String) : Bool := goStartsWith p "/"

/-- Go `strings.Trim(s, "/")`: remove all leading and trailing slashes. -/
def goTrimSlash (s : String) : String :=
  ⟨((s.data.dropWhile (· = '/')).reverse.dropWhile (· = '/')).reverse⟩

/-- Go `strings.Split(s, "/")` as used by the depth filter. -/
def goSplitSlash (s : String) : List String :=
  (splitOnChar '/' s.data).map (fun l => ⟨l⟩)

/-- One step of Go `path/filepath.Clean`'s element processing (unix):
`..` pops a previous element, is dropped at the root, and is kept at the
start of a relative path; other elements are pushed.  The accumulator is
kept reversed. -/
def cleanStep (rooted : Bool) (acc : List String) (c : String) : List String :=
  if c = ".." then
    match acc with
    | [] => if rooted then [] else [".."]
    | a :: rest => if a = ".." then ".." :: a :: rest else rest
  else c :: acc

/-- Join path elements with `/`. -/
def joinSlash : List String → String
  | [] => ""
  | [x] => x
  | x :: xs => x ++ "/" ++ joinSlash xs

/-- Go `path/filepath.Clean` on a unix system. -/
def goClean (path : String) : String :=
  if path = "" then "."
  else
    let rooted := goIsAbs path
    let comps := (goSplitSlash path).filter (fun c => !(c == "") && !(c == "."))
    let out := ((comps.foldl (cleanStep rooted) []).reverse)
    let s := joinSlash out
    if rooted then "/" ++ s
    else if s = "" then "." else s

/-- Go `path/filepath.Abs`: clean an absolute path, otherwise join it to
the working directory of the process and clean. -/
def goAbs (cwd path : String) : String :=
  if goIsAbs path then goClean path else goClean (cwd ++ "/" ++ path)

/-- One entry of an archive as the format readers expose it: header name,
declared size, permission string, and the raw payload bytes that the
entry's reader can actually serve. -/
structure Entry where
  name : String
  size : Nat
  mode : String
  data : List UInt8
deriving DecidableEq

/-- Environment of operating-system and library effects: symlink
resolution (`filepath.EvalSymlinks`, `none` = error), regular-expression
validity and matching (`regexp.MatchString`), and the decoded entry
sequence of the archive file stored at a path (`none` = open or
decompression failure). -/
structure Env where
  evalSymlinks : String → Option String
  reValid : String → Bool
  reMatch : String → String → Bool
  archives : String → Option (List Entry)

/-- Failure modes of `securePath`. -/
inductive PathError
  | notAbsolute
  | unresolvable
  | outsideSandbox
deriving DecidableEq

/-- Failure modes of the list/extract pipelines. -/
inductive ArchiveError
  | pathError (e : PathError)
  | openError
  | unsupportedFormat
  | invalidIncludePat
  | invalidExcludePat
  | fileTooLarge (name : String) (size : Nat)
  | readEntryError (name : String)
  | sliceBoundsPanic
deriving DecidableEq

/-- The `Archive` configuration struct. -/
structure Archive where
  maxSize : Nat
  Workdir : String
deriving DecidableEq

/-- Go `New(workdir)`: `maxSize` is 100 KiB and `Workdir` is
`filepath.Abs(workdir)` (which needs the process working directory). -/
def New (cwd workdir : String) : Archive :=
  { maxSize := 100 * 1024, Workdir := goAbs cwd workdir }

/-- Go `(a *Archive) securePath(path)`: reject non-absolute paths, clean,
resolve symlinks, then require the resolved path to have the workdir as a
string prefix. -/
def Archive.securePath (a : Archive) (env : Env) (path : String) :
    Except PathError String :=
  if goIsAbs path = false then .error .notAbsolute
  else
    let absPath := goClean path
    match env.evalSymlinks absPath with
    | none => .error .unresolvable
    | some evalPath =>
      if goStartsWith evalPath a.Workdir = false then .error .outsideSandbox
      else .ok evalPath

/-- Go `FileInfo`: one listed entry. -/
structure FileInfo where
  Name : String
  Size : Nat
  Permissions : String
deriving DecidableEq

/-- Arguments of the `list_archive_files` tool. -/
structure ListArchiveFilesArgs where
  Path : String
  Depth : Int
  Limit : Int
  IncludePat : String
  ExcludePat : String
deriving DecidableEq

/-- Result of the `list_archive_files` tool.  The three counters are Go
`int`s. -/
structure ListArchiveFilesResult where
  TotalFiles : Int
  FilteredFiles : Int
  DisplayedFiles : Int
  Files : List FileInfo
deriving DecidableEq

/-- The depth-drop test shared by all five list loops:
`depth > 0 && len(strings.Split(strings.Trim(name, "/"), "/")) > depth`. -/
def depthDrop (depth : Int) (name : String) : Bool :=
  decide (0 < depth) && decide (depth < ((goSplitSlash (goTrimSlash name)).length : Int))

/-- The body of each format's list loop: skip entries failing the depth
test, keep name, size and permission string in reader order. -/
def listEntries (depth : Int) (entries : List Entry) : List FileInfo :=
  entries.filterMap fun e =>
    if depthDrop depth e.name then none
    else some { Name := e.name, Size := e.size, Permissions := e.mode }

/-- Common shape of the five `xxxList` methods: validate the path, open
and decode the archive (absorbed into `Env.archives`), then run the
depth-filtering entry loop. -/
def Archive.formatList (a : Archive) (env : Env) (path : String) (depth : Int) :
    Except ArchiveError (List FileInfo) :=
  match a.securePath env path with
  | .error e => .error (.pathError e)
  | .ok sp =>
    match env.archives sp with
    | none => .error .openError
    | some entries => .ok (listEntries depth entries)

/-- Go `(a *Archive) cpioList`. -/
def Archive.cpioList (a : Archive) : Env → String → Int → Except ArchiveError (List FileInfo) :=
  a.formatList

/-- Go `(a *Archive) tarGzList`. -/
def Archive.tarGzList (a : Archive) : Env → String → Int → Except ArchiveError (List FileInfo) :=
  a.formatList

/-- Go `(a *Archive) tarBz2List`. -/
def Archive.tarBz2List (a : Archive) : Env → String → Int → Except ArchiveError (List FileInfo) :=
  a.formatList

/-- Go `(a *Archive) tarXzList`. -/
def Archive.tarXzList (a : Archive) : Env → String → Int → Except ArchiveError (List FileInfo) :=
  a.formatList

/-- Go `(a *Archive) zipList`. -/
def Archive.zipList (a : Archive) : Env → String → Int → Except ArchiveError (List FileInfo) :=
  a.formatList

/-- The suffix switch of `ListArchiveFiles`, in source order. -/
def Archive.dispatchList (a : Archive) (env : Env) (path : String) (depth : Int) :
    Except ArchiveError (List FileInfo) :=
  if goEndsWith path ".cpio" then a.cpioList env path depth
  else if goEndsWith path ".tar.gz" then a.tarGzList env path depth
  else if goEndsWith path ".tar.bz2" then a.tarBz2List env path depth
  else if goEndsWith path ".tar.xz" then a.tarXzList env path depth
  else if goEndsWith path ".zip" then a.zipList env path depth
  else .error .unsupportedFormat

/-- Go `regexp.MatchString(pattern, s)`: compile (may fail), then search
anywhere in `s`. -/
def matchString (env : Env) (pat s : String) : Except Unit Bool :=
  if env.reValid pat then .ok (env.reMatch pat s) else .error ()

/-- The pattern-filter loop of `ListArchiveFiles` over the depth-filtered
entries: for each file compute the include match (default true) and the
exclude match (default false), failing the whole call on a pattern
compile error, and keep files matching include but not exclude. -/
def filterLoop (env : Env) (inc exc : String) :
    List FileInfo → Except ArchiveError (List FileInfo)
  | [] => .ok []
  | f :: rest =>
    match (if inc ≠ "" then matchString env inc f.Name else .ok true) with
    | .error _ => .error .invalidIncludePat
    | .ok includeMatch =>
      match (if exc ≠ "" then matchString env exc f.Name else .ok false) with
      | .error _ => .error .invalidExcludePat
      | .ok excludeMatch =>
        match filterLoop env inc exc rest with
        | .error e => .error e
        | .ok tail =>
          .ok (if includeMatch && !excludeMatch then f :: tail else tail)

/-- Go `(a *Archive) ListArchiveFiles`: dispatch by suffix, count totals,
pattern-filter, default the limit, truncate.  The Go slice expression
`filteredFiles[:displayedFilesCount]` panics when the count is negative
(possible only for a negative `Limit`); the panic is modelled as the
`sliceBoundsPanic` error. -/
def Archive.ListArchiveFiles (a : Archive) (env : Env) (args : ListArchiveFilesArgs) :
    Except ArchiveError ListArchiveFilesResult :=
  match a.dispatchList env args.Path args.Depth with
  | .error e => .error e
  | .ok files =>
    match filterLoop env args.IncludePat args.ExcludePat files with
    | .error e => .error e
    | .ok filteredFiles =>
      let limit : Int := if args.Limit = 0 then 100 else args.Limit
      let displayedFilesCount : Int :=
        if limit < (filteredFiles.length : Int) then limit
        else (filteredFiles.length : Int)
      if displayedFilesCount < 0 then .error .sliceBoundsPanic
      else
        .ok { TotalFiles := (files.length : Int)
              FilteredFiles := (filteredFiles.length : Int)
              DisplayedFiles := displayedFilesCount
              Files := filteredFiles.take displayedFilesCount.toNat }

/-- Go `File`: an extracted file with its content bytes. -/
structure File where
  Name : String
  Size : Nat
  Permissions : String
  Content : List UInt8
deriving DecidableEq

/-- Result of the `extract_archive_files` tool. -/
structure ExtractArchiveFilesResult where
  Files : List File
deriving DecidableEq

/-- Go `io.ReadFull(r, buf)` with `len(buf) = n` over a byte stream:
succeed with exactly `n` bytes and the rest of the stream, or fail when
fewer are available. -/
def readFull (stream : List UInt8) (n : Nat) : Option (List UInt8 × List UInt8) :=
  if n ≤ stream.length then some (stream.take n, stream.drop n) else none

/-- Inner loop of the cpio/tar extract methods for one header: walk the
requested names; on an exact name match check the size limit and then
`io.ReadFull` a buffer of the declared size from the entry's reader,
which is stateful — bytes consumed by one match are gone for the next. -/
def extractEntryStream (maxSize : Nat) (e : Entry) :
    List String → List UInt8 → Except ArchiveError (List File)
  | [], _ => .ok []
  | n :: rest, stream =>
    if e.name = n then
      if maxSize < e.size then .error (.fileTooLarge e.name e.size)
      else
        match readFull stream e.size with
        | none => .error (.readEntryError e.name)
        | some (buf, stream') =>
          match extractEntryStream maxSize e rest stream' with
          | .error err => .error err
          | .ok tail =>
            .ok ({ Name := e.name, Size := e.size, Permissions := e.mode,
                   Content := buf } :: tail)
    else extractEntryStream maxSize e rest stream

/-- Outer loop of the cpio/tar extract methods: iterate headers; each
header's reader serves at most `size` bytes of its payload. -/
def streamExtractEntries (maxSize : Nat) (names : List String) :
    List Entry → Except ArchiveError (List File)
  | [] => .ok []
  | e :: rest =>
    match extractEntryStream maxSize e names (e.data.take e.size) with
    | .error err => .error err
    | .ok fs =>
      match streamExtractEntries maxSize names rest with
      | .error err => .error err
      | .ok tail => .ok (fs ++ tail)

/-- Inner loop of `zipExtract` for one entry: walk the requested names;
on a match check the size limit, then `f.Open()` a fresh reader over the
entry's bytes and `io.ReadFull` the declared size from it. -/
def extractEntryZip (maxSize : Nat) (e : Entry) :
    List String → Except ArchiveError (List File)
  | [] => .ok []
  | n :: rest =>
    if e.name = n then
      if maxSize < e.size then .error (.fileTooLarge e.name e.size)
      else
        match readFull e.data e.size with
        | none => .error (.readEntryError e.name)
        | some (buf, _) =>
          match extractEntryZip maxSize e rest with
          | .error err => .error err
          | .ok tail =>
            .ok ({ Name := e.name, Size := e.size, Permissions := e.mode,
                   Content := buf } :: tail)
    else extractEntryZip maxSize e rest

/-- Outer loop of `zipExtract` over the central directory. -/
def zipExtractEntries (maxSize : Nat) (names : List String) :
    List Entry → Except ArchiveError (List File)
  | [] => .ok []
  | e :: rest =>
    match extractEntryZip maxSize e names with
    | .error err => .error err
    | .ok fs =>
      match zipExtractEntries maxSize names rest with
      | .error err => .error err
      | .ok tail => .ok (fs ++ tail)

/-- Common shape of the four stream-based `xxxExtract` methods: validate
the path, open and decode (absorbed into `Env.archives`), then run the
header loop. -/
def Archive.formatExtractStream (a : Archive) (env : Env) (path : String)
    (filesToExtract : List String) : Except ArchiveError (List File) :=
  match a.securePath env path with
  | .error e => .error (.pathError e)
  | .ok sp =>
    match env.archives sp with
    | none => .error .openError
    | some entries => streamExtractEntries a.maxSize filesToExtract entries

/-- Go `(a *Archive) cpioExtract`. -/
def Archive.cpioExtract (a : Archive) : Env → String → List String → Except ArchiveError (List File) :=
  a.formatExtractStream

/-- Go `(a *Archive) tarGzExtract`. -/
def Archive.tarGzExtract (a : Archive) : Env → String → List String → Except ArchiveError (List File) :=
  a.formatExtractStream

/-- Go `(a *Archive) tarBz2Extract`. -/
def Archive.tarBz2Extract (a : Archive) : Env → String → List String → Except ArchiveError (List File) :=
  a.formatExtractStream

/-- Go `(a *Archive) tarXzExtract`. -/
def Archive.tarXzExtract (a : Archive) : Env → String → List String → Except ArchiveError (List File) :=
  a.formatExtractStream

/-- Go `(a *Archive) zipExtract`. -/
def Archive.zipExtract (a : Archive) (env : Env) (path : String)
    (filesToExtract : List String) : Except ArchiveError (List File) :=
  match a.securePath env path with
  | .error e => .error (.pathError e)
  | .ok sp =>
    match env.archives sp with
    | none => .error .openError
    | some entries => zipExtractEntries a.maxSize filesToExtract entries

/-- The suffix switch of `ExtractArchiveFiles`, in source order. -/
def Archive.dispatchExtract (a : Archive) (env : Env) (path : String)
    (filesToExtract : List String) : Except ArchiveError (List File) :=
  if goEndsWith path ".cpio" then a.cpioExtract env path filesToExtract
  else if goEndsWith path ".tar.gz" then a.tarGzExtract env path filesToExtract
  else if goEndsWith path ".tar.bz2" then a.tarBz2Extract env path filesToExtract
  else if goEndsWith path ".tar.xz" then a.tarXzExtract env path filesToExtract
  else if goEndsWith path ".zip" then a.zipExtract env path filesToExtract
  else .error .unsupportedFormat

/-- Go `(a *Archive) ExtractArchiveFiles`. -/
def Archive.ExtractArchiveFiles (a : Archive) (env : Env) (path : String)
    (filesArg : List String) : Except ArchiveError ExtractArchiveFilesResult :=
  match a.dispatchExtract env path filesArg with
  | .error e => .error e
  | .ok files => .ok { Files := files }

/-! Spec-side auxiliary definitions used to state the properties. -/

/-- A path is a descendant of a root directory: equal to it, or strictly
below it (the root followed by a path separator is a prefix). -/
def isDescendantOf (p root : String) : Bool :=
  p == root || goStartsWith p (root ++ "/")

/-- The path carries one of the five supported archive suffixes. -/
def hasSupportedSuffix (p : String) : Bool :=
  goEndsWith p ".cpio" || goEndsWith p ".tar.gz" || goEndsWith p ".tar.bz2" ||
    goEndsWith p ".tar.xz" || goEndsWith p ".zip"

/-- The extracted file an entry yields when its read succeeds. -/
def mkFile (e : Entry) : File :=
  { Name := e.name, Size := e.size, Permissions := e.mode,
    Content := e.data.take e.size }

/-- One extracted file per requested-name occurrence equal to the entry's
name, all carrying the given content. -/
def matchFiles (names : List String) (e : Entry) (content : List UInt8) : List File :=
  (names.filter fun n => e.name == n).map fun _ =>
    { Name := e.name, Size := e.size, Permissions := e.mode, Content := content }

/-- Reference result of extraction: for each entry occurrence, in archive
order, one file per matching requested-name occurrence. -/
def extractSpec (names : List String) : List Entry → List File
  | [] => []
  | e :: rest => matchFiles names e (e.data.take e.size) ++ extractSpec names rest

/-- Concrete environment with no symlinks, no archives, and all regular
expressions valid and matching everything. -/
def idEnv : Env :=
  { evalSymlinks := some, reValid := fun _ => true, reMatch := fun _ _ => true,
    archives := fun _ => none }

/-- Concrete environment in which `/sym` is a symbolic link to `/real`:
a path inside `/sym` resolves below `/real`. -/
def symEnv : Env :=
  { evalSymlinks := fun p => if p = "/sym/a.cpio" then some "/real/a.cpio" else some p,
    reValid := fun _ => true, reMatch := fun _ _ => true,
    archives := fun _ => none }

/-- Concrete environment holding an empty cpio archive at `/w/a.cpio`;
the pattern `(` does not compile. -/
def badPatEnv : Env :=
  { evalSymlinks := some, reValid := fun p => !(p == "("),
    reMatch := fun _ _ => true,
    archives := fun q => if q = "/w/a.cpio" then some [] else none }

/-- Concrete environment holding a one-entry cpio archive at `/w/b.cpio`;
the pattern `(` does not compile. -/
def nePatEnv : Env :=
  { evalSymlinks := some, reValid := fun p => !(p == "("),
    reMatch := fun _ _ => true,
    archives := fun q =>
      if q = "/w/b.cpio" then some [{ name := "x", size := 0, mode := "m", data := [] }]
      else none }

/-- Concrete environment holding a two-entry cpio archive at
`/w/test.cpio`. -/
def listEnv : Env :=
  { evalSymlinks := some, reValid := fun _ => true, reMatch := fun _ _ => true,
    archives := fun q =>
      if q = "/w/test.cpio" then
        some [{ name := "foo", size := 0, mode := "d", data := [] },
              { name := "foo/baar.txt", size := 27, mode := "f", data := [] }]
      else none }

/-- Concrete environment holding a cpio archive at `/w/a.cpio` with one
one-byte entry named `a`. -/
def dupEnv : Env :=
  { evalSymlinks := some, reValid := fun _ => true, reMatch := fun _ _ => true,
    archives := fun q =>
      if q = "/w/a.cpio" then some [{ name := "a", size := 1, mode := "m", data := [104] }]
      else none }

/-- Concrete environment holding a zip archive at `/w/a.zip` whose entry
`f` declares size 1 but stores two bytes. -/
def truncEnv : Env :=
  { evalSymlinks := some, reValid := fun _ => true, reMatch := fun _ _ => true,
    archives := fun q =>
      if q = "/w/a.zip" then some [{ name := "f", size := 1, mode := "m", data := [104, 105] }]
      else none }

/-! Helper lemmas about the extraction inner loops. -/

/-- On an exhausted entry reader, a requested occurrence of a
positive-size entry name can never succeed. -/
theorem extractEntryStream_nil_not_ok (maxSize : Nat) (e : Entry) :
    ∀ names : List String, e.name ∈ names → 0 < e.size →
      ∀ fs, extractEntryStream maxSize e names [] ≠ Except.ok fs := by
  intro names
  induction names with
  | nil => intro h; exact absurd h (List.not_mem_nil _)
  | cons n rest ih =>
    intro hmem hpos fs h
    simp only [extractEntryStream] at h
    by_cases hn : e.name = n
    · rw [if_pos hn] at h
      split at h
      · exact Except.noConfusion h
      · have : readFull [] e.size = none := by
          simp [readFull]; omega
        rw [this] at h
        exact Except.noConfusion h
    · rw [if_neg hn] at h
      have : e.name ∈ rest := by
        rcases List.mem_cons.mp hmem with h' | h'
        · exact absurd h' hn
        · exact h'
      exact ih this hpos fs h

/-- Everything the stream inner loop returns on success has the entry's
name, its declared size as both `Size` and content length, and respects
the size limit. -/
theorem extractEntryStream_ok_mem (maxSize : Nat) (e : Entry) :
    ∀ (names : List String) (stream : List UInt8) (fs : List File),
      extractEntryStream maxSize e names stream = Except.ok fs →
      ∀ f ∈ fs, f.Name = e.name ∧ f.Size = e.size ∧
        f.Content.length = e.size ∧ e.size ≤ maxSize := by
  intro names
  induction names with
  | nil =>
    intro stream fs h f hf
    simp only [extractEntryStream] at h
    cases h
    exact absurd hf (List.not_mem_nil _)
  | cons n rest ih =>
    intro stream fs h f hf
    simp only [extractEntryStream] at h
    split at h
    · split at h
      · exact Except.noConfusion h
      · rename_i hn hsz
        split at h
        · exact Except.noConfusion h
        · rename_i buf s' hrf
          split at h
          · exact Except.noConfusion h
          · rename_i tail hrec
            cases h
            rcases List.mem_cons.mp hf with h' | h'
            · subst h'
              refine ⟨rfl, rfl, ?_, by omega⟩
              simp only [readFull] at hrf
              split at hrf
              · rename_i hle
                cases hrf
                simp only [List.length_take]
                omega
              · exact Option.noConfusion hrf
            · exact ih s' tail hrec f h'
    · exact ih stream fs h f hf

/-- An entry matching no requested name contributes nothing and consumes
nothing. -/
theorem extractEntryStream_nomatch (maxSize : Nat) (e : Entry) :
    ∀ (names : List String) (stream : List UInt8), e.name ∉ names →
      extractEntryStream maxSize e names stream = Except.ok [] := by
  intro names
  induction names with
  | nil => intro stream _; rfl
  | cons n rest ih =>
    intro stream hmem
    have hn : ¬e.name = n := fun h => hmem (h ▸ List.mem_cons_self n rest)
    have hr : e.name ∉ rest := fun h => hmem (List.mem_cons_of_mem n h)
    simp only [extractEntryStream, if_neg hn]
    exact ih stream hr

/-- Same for the zip inner loop. -/
theorem extractEntryZip_nomatch (maxSize : Nat) (e : Entry) :
    ∀ names : List String, e.name ∉ names →
      extractEntryZip maxSize e names = Except.ok [] := by
  intro names
  induction names with
  | nil => intro _; rfl
  | cons n rest ih =>
    intro hmem
    have hn : ¬e.name = n := fun h => hmem (h ▸ List.mem_cons_self n rest)
    have hr : e.name ∉ rest := fun h => hmem (List.mem_cons_of_mem n h)
    simp only [extractEntryZip, if_neg hn]
    exact ih hr

/-- A requested entry over the size limit makes the stream inner loop
fail with exactly the `FileTooLarge` error naming it and its size. -/
theorem extractEntryStream_tooLarge (maxSize : Nat) (e : Entry) :
    ∀ (names : List String) (stream : List UInt8),
      e.name ∈ names → maxSize < e.size →
      extractEntryStream maxSize e names stream =
        Except.error (.fileTooLarge e.name e.size) := by
  intro names
  induction names with
  | nil => intro _ h; exact absurd h (List.not_mem_nil _)
  | cons n rest ih =>
    intro stream hmem hsz
    by_cases hn : e.name = n
    · simp only [extractEntryStream, if_pos hn, if_pos hsz]
    · have : e.name ∈ rest := by
        rcases List.mem_cons.mp hmem with h' | h'
        · exact absurd h' hn
        · exact h'
      simp only [extractEntryStream, if_neg hn]
      exact ih stream this hsz

/-- Same for the zip inner loop. -/
theorem extractEntryZip_tooLarge (maxSize : Nat) (e : Entry) :
    ∀ names : List String, e.name ∈ names → maxSize < e.size →
      extractEntryZip maxSize e names =
        Except.error (.fileTooLarge e.name e.size) := by
  intro names
  induction names with
  | nil => intro h; exact absurd h (List.not_mem_nil _)
  | cons n rest ih =>
    intro hmem hsz
    by_cases hn : e.name = n
    · simp only [extractEntryZip, if_pos hn, if_pos hsz]
    · have : e.name ∈ rest := by
        rcases List.mem_cons.mp hmem with h' | h'
        · exact absurd h' hn
        · exact h'
      simp only [extractEntryZip, if_neg hn]
      exact ih this hsz

/-- Success of the stream inner loop determines the result: one file per
matching requested occurrence, each carrying the first `size` bytes the
reader served. -/
theorem extractEntryStream_ok_eq (maxSize : Nat) (e : Entry) :
    ∀ (names : List String) (stream : List UInt8) (fs : List File),
      stream.length ≤ e.size →
      extractEntryStream maxSize e names stream = Except.ok fs →
      fs = matchFiles names e (stream.take e.size) := by
  intro names
  induction names with
  | nil =>
    intro stream fs _ h
    simp only [extractEntryStream] at h
    cases h
    simp [matchFiles]
  | cons n rest ih =>
    intro stream fs hlen h
    simp only [extractEntryStream] at h
    split at h
    · rename_i hn
      split at h
      · exact Except.noConfusion h
      · rename_i hsz
        split at h
        · exact Except.noConfusion h
        · rename_i buf s' hrf
          split at h
          · exact Except.noConfusion h
          · rename_i tail hrec
            cases h
            simp only [readFull] at hrf
            split at hrf
            · rename_i hle
              simp only [Option.some.injEq, Prod.mk.injEq] at hrf
              obtain ⟨hbuf, hs'⟩ := hrf
              have hstream : stream.length = e.size := le_antisymm hlen hle
              have hs'nil : s' = [] := by
                rw [← hs']
                exact List.drop_eq_nil_of_le (by omega)
              have htail : tail = matchFiles rest e (([] : List UInt8).take e.size) := by
                apply ih
                · simp [hs'nil]
                · rw [← hs'nil]; exact hrec
              simp only [List.take_nil] at htail
              have htail' : matchFiles rest e [] = matchFiles rest e (stream.take e.size) := by
                by_cases hsz0 : e.size = 0
                · rw [hsz0, List.take_zero]
                · by_cases hm : e.name ∈ rest
                  · exfalso
                    rw [hs'nil] at hrec
                    exact extractEntryStream_nil_not_ok maxSize e rest hm
                      (Nat.pos_of_ne_zero hsz0) tail hrec
                  · have hfil : rest.filter (fun n' => e.name == n') = [] := by
                      rw [List.filter_eq_nil_iff]
                      intro a ha
                      simp only [beq_iff_eq]
                      intro hEq
                      exact hm (hEq ▸ ha)
                    simp [matchFiles, hfil]
              simp only [matchFiles, List.filter_cons, beq_iff_eq, if_pos hn]
              simp only [List.map_cons]
              refine List.cons_eq_cons.mpr ⟨?_, ?_⟩
              · simp [← hbuf]
              · rw [htail, htail']
                simp [matchFiles]
            · exact Option.noConfusion hrf
    · rename_i hn
      have := ih stream fs hlen h
      rw [this]
      simp only [matchFiles, List.filter_cons, beq_iff_eq, if_neg hn]

/-- Success of the zip inner loop determines the result in the same way;
the reader is reopened for each match, so duplicates always succeed. -/
theorem extractEntryZip_ok_eq (maxSize : Nat) (e : Entry) :
    ∀ (names : List String) (fs : List File),
      extractEntryZip maxSize e names = Except.ok fs →
      fs = matchFiles names e (e.data.take e.size) := by
  intro names
  induction names with
  | nil =>
    intro fs h
    simp only [extractEntryZip] at h
    cases h
    simp [matchFiles]
  | cons n rest ih =>
    intro fs h
    simp only [extractEntryZip] at h
    split at h
    · rename_i hn
      split at h
      · exact Except.noConfusion h
      · split at h
        · exact Except.noConfusion h
        · rename_i buf s' hrf
          split at h
          · exact Except.noConfusion h
          · rename_i tail hrec
            cases h
            simp only [readFull] at hrf
            split at hrf
            · simp only [Option.some.injEq, Prod.mk.injEq] at hrf
              obtain ⟨hbuf, _⟩ := hrf
              simp only [matchFiles, List.filter_cons, beq_iff_eq, if_pos hn, List.map_cons]
              refine List.cons_eq_cons.mpr ⟨by simp [← hbuf], ?_⟩
              rw [ih tail hrec]
              simp [matchFiles]
            · exact Option.noConfusion hrf
    · rename_i hn
      rw [ih fs h]
      simp only [matchFiles, List.filter_cons, beq_iff_eq, if_neg hn]

/-- Everything the zip inner loop returns on success has the declared
size as content length and respects the size limit. -/
theorem extractEntryZip_ok_mem (maxSize : Nat) (e : Entry) :
    ∀ (names : List String) (fs : List File),
      extractEntryZip maxSize e names = Except.ok fs →
      ∀ f ∈ fs, f.Name = e.name ∧ f.Size = e.size ∧
        f.Content.length = e.size ∧ e.size ≤ maxSize := by
  intro names
  induction names with
  | nil =>
    intro fs h f hf
    simp only [extractEntryZip] at h
    cases h
    exact absurd hf (List.not_mem_nil _)
  | cons n rest ih =>
    intro fs h f hf
    simp only [extractEntryZip] at h
    split at h
    · split at h
      · exact Except.noConfusion h
      · rename_i hn hsz
        split at h
        · exact Except.noConfusion h
        · rename_i buf s' hrf
          split at h
          · exact Except.noConfusion h
          · rename_i tail hrec
            cases h
            rcases List.mem_cons.mp hf with h' | h'
            · subst h'
              refine ⟨rfl, rfl, ?_, by omega⟩
              simp only [readFull] at hrf
              split at hrf
              · rename_i hle
                simp only [Option.some.injEq, Prod.mk.injEq] at hrf
                obtain ⟨hbuf, _⟩ := hrf
                simp only [← hbuf, List.length_take]
                omega
              · exact Option.noConfusion hrf
            · exact ih tail hrec f h'
    · exact ih fs h f hf

/-- A second requested occurrence of a positive-size entry name finds the
entry's stream already consumed, so the stream inner loop cannot
succeed. -/
theorem extractEntryStream_dup_not_ok (maxSize : Nat) (e : Entry) :
    ∀ (pre post : List String), e.name ∉ pre → e.name ∈ post → 0 < e.size →
      ∀ fs, extractEntryStream maxSize e (pre ++ e.name :: post)
        (e.data.take e.size) ≠ Except.ok fs := by
  intro pre
  induction pre with
  | nil =>
    intro post _ hpost hpos fs h
    rw [List.nil_append] at h
    simp only [extractEntryStream] at h
    split at h
    · split at h
      · exact Except.noConfusion h
      · split at h
        · exact Except.noConfusion h
        · rename_i buf s' hrf
          simp only [readFull] at hrf
          split at hrf
          · rename_i hle
            simp only [Option.some.injEq, Prod.mk.injEq] at hrf
            obtain ⟨_, hs'⟩ := hrf
            have hs'nil : s' = [] := by
              rw [← hs']
              exact List.drop_eq_nil_of_le (by simp [List.length_take])
            rw [hs'nil] at h
            split at h
            · exact Except.noConfusion h
            · rename_i tail hrec
              exact extractEntryStream_nil_not_ok maxSize e post hpost hpos tail hrec
          · exact Option.noConfusion hrf
    · rename_i hcon
      exact hcon trivial
  | cons p pre' ih =>
    intro post hpre hpost hpos fs h
    have hn : ¬e.name = p := fun hEq => hpre (hEq ▸ List.mem_cons_self p pre')
    have hpre' : e.name ∉ pre' := fun hm => hpre (List.mem_cons_of_mem p hm)
    simp only [List.cons_append, extractEntryStream, if_neg hn] at h
    exact ih post hpre' hpost hpos fs h

/-! Helper lemmas about the extraction outer loops. -/

/-- If some entry's inner loop can never succeed, the whole stream
extraction cannot succeed. -/
theorem streamExtractEntries_not_ok_of_mem (maxSize : Nat) (names : List String) :
    ∀ (entries : List Entry) (e : Entry), e ∈ entries →
      (∀ fs, extractEntryStream maxSize e names (e.data.take e.size) ≠ Except.ok fs) →
      ∀ r, streamExtractEntries maxSize names entries ≠ Except.ok r := by
  intro entries
  induction entries with
  | nil => intro e he; exact absurd he (List.not_mem_nil _)
  | cons a rest ih =>
    intro e he hbad r h
    simp only [streamExtractEntries] at h
    split at h
    · exact Except.noConfusion h
    · rename_i fs hfs
      split at h
      · exact Except.noConfusion h
      · rename_i tail htail
        rcases List.mem_cons.mp he with h' | h'
        · subst h'
          exact hbad fs hfs
        · exact ih e h' hbad tail htail

/-- Same for the zip outer loop. -/
theorem zipExtractEntries_not_ok_of_mem (maxSize : Nat) (names : List String) :
    ∀ (entries : List Entry) (e : Entry), e ∈ entries →
      (∀ fs, extractEntryZip maxSize e names ≠ Except.ok fs) →
      ∀ r, zipExtractEntries maxSize names entries ≠ Except.ok r := by
  intro entries
  induction entries with
  | nil => intro e he; exact absurd he (List.not_mem_nil _)
  | cons a rest ih =>
    intro e he hbad r h
    simp only [zipExtractEntries] at h
    split at h
    · exact Except.noConfusion h
    · rename_i fs hfs
      split at h
      · exact Except.noConfusion h
      · rename_i tail htail
        rcases List.mem_cons.mp he with h' | h'
        · subst h'
          exact hbad fs hfs
        · exact ih e h' hbad tail htail

/-- Success of the stream extraction determines the result: the
per-occurrence reference result. -/
theorem streamExtractEntries_ok_eq (maxSize : Nat) (names : List String) :
    ∀ (entries : List Entry) (r : List File),
      streamExtractEntries maxSize names entries = Except.ok r →
      r = extractSpec names entries := by
  intro entries
  induction entries with
  | nil =>
    intro r h
    simp only [streamExtractEntries] at h
    cases h
    rfl
  | cons a rest ih =>
    intro r h
    simp only [streamExtractEntries] at h
    split at h
    · exact Except.noConfusion h
    · rename_i fs hfs
      split at h
      · exact Except.noConfusion h
      · rename_i tail htail
        cases h
        have h1 : fs = matchFiles names a ((a.data.take a.size).take a.size) := by
          apply extractEntryStream_ok_eq maxSize a names _ fs _ hfs
          simp [List.length_take]
        rw [List.take_take, min_self] at h1
        simp only [extractSpec]
        rw [h1, ih tail htail]

/-- Same for the zip outer loop. -/
theorem zipExtractEntries_ok_eq (maxSize : Nat) (names : List String) :
    ∀ (entries : List Entry) (r : List File),
      zipExtractEntries maxSize names entries = Except.ok r →
      r = extractSpec names entries := by
  intro entries
  induction entries with
  | nil =>
    intro r h
    simp only [zipExtractEntries] at h
    cases h
    rfl
  | cons a rest ih =>
    intro r h
    simp only [zipExtractEntries] at h
    split at h
    · exact Except.noConfusion h
    · rename_i fs hfs
      split at h
      · exact Except.noConfusion h
      · rename_i tail htail
        cases h
        simp only [extractSpec]
        rw [extractEntryZip_ok_eq maxSize a names fs hfs, ih tail htail]

/-- Every file a successful stream extraction returns has content of
exactly its declared size, within the limit. -/
theorem streamExtractEntries_ok_mem (maxSize : Nat) (names : List String) :
    ∀ (entries : List Entry) (r : List File),
      streamExtractEntries maxSize names entries = Except.ok r →
      ∀ f ∈ r, f.Content.length = f.Size ∧ f.Size ≤ maxSize := by
  intro entries
  induction entries with
  | nil =>
    intro r h f hf
    simp only [streamExtractEntries] at h
    cases h
    exact absurd hf (List.not_mem_nil _)
  | cons a rest ih =>
    intro r h f hf
    simp only [streamExtractEntries] at h
    split at h
    · exact Except.noConfusion h
    · rename_i fs hfs
      split at h
      · exact Except.noConfusion h
      · rename_i tail htail
        cases h
        rcases List.mem_append.mp hf with h' | h'
        · obtain ⟨_, h2, h3, h4⟩ := extractEntryStream_ok_mem maxSize a names _ fs hfs f h'
          exact ⟨by rw [h3, h2], by rw [h2]; exact h4⟩
        · exact ih tail htail f h'

/-- Same for the zip outer loop. -/
theorem zipExtractEntries_ok_mem (maxSize : Nat) (names : List String) :
    ∀ (entries : List Entry) (r : List File),
      zipExtractEntries maxSize names entries = Except.ok r →
      ∀ f ∈ r, f.Content.length = f.Size ∧ f.Size ≤ maxSize := by
  intro entries
  induction entries with
  | nil =>
    intro r h f hf
    simp only [zipExtractEntries] at h
    cases h
    exact absurd hf (List.not_mem_nil _)
  | cons a rest ih =>
    intro r h f hf
    simp only [zipExtractEntries] at h
    split at h
    · exact Except.noConfusion h
    · rename_i fs hfs
      split at h
      · exact Except.noConfusion h
      · rename_i tail htail
        cases h
        rcases List.mem_append.mp hf with h' | h'
        · obtain ⟨_, h2, h3, h4⟩ := extractEntryZip_ok_mem maxSize a names fs hfs f h'
          exact ⟨by rw [h3, h2], by rw [h2]; exact h4⟩
        · exact ih tail htail f h'

/-- When the first requested entry in archive order is over the limit,
the stream extraction fails with exactly `FileTooLarge` for it. -/
theorem streamExtractEntries_tooLarge_first (maxSize : Nat) (names : List String) :
    ∀ (pre : List Entry) (e : Entry) (post : List Entry),
      (∀ e' ∈ pre, e'.name ∉ names) → e.name ∈ names → maxSize < e.size →
      streamExtractEntries maxSize names (pre ++ e :: post) =
        Except.error (.fileTooLarge e.name e.size) := by
  intro pre
  induction pre with
  | nil =>
    intro e post _ hmem hsz
    simp only [List.nil_append, streamExtractEntries]
    rw [extractEntryStream_tooLarge maxSize e names _ hmem hsz]
  | cons a pre' ih =>
    intro e post hpre hmem hsz
    have ha : a.name ∉ names := hpre a (List.mem_cons_self a pre')
    have hpre' : ∀ e' ∈ pre', e'.name ∉ names :=
      fun e' he' => hpre e' (List.mem_cons_of_mem a he')
    simp only [List.cons_append, streamExtractEntries,
      extractEntryStream_nomatch maxSize a names _ ha, List.append_eq,
      ih e post hpre' hmem hsz]

/-- Same for the zip outer loop. -/
theorem zipExtractEntries_tooLarge_first (maxSize : Nat) (names : List String) :
    ∀ (pre : List Entry) (e : Entry) (post : List Entry),
      (∀ e' ∈ pre, e'.name ∉ names) → e.name ∈ names → maxSize < e.size →
      zipExtractEntries maxSize names (pre ++ e :: post) =
        Except.error (.fileTooLarge e.name e.size) := by
  intro pre
  induction pre with
  | nil =>
    intro e post _ hmem hsz
    simp only [List.nil_append, zipExtractEntries]
    rw [extractEntryZip_tooLarge maxSize e names hmem hsz]
  | cons a pre' ih =>
    intro e post hpre hmem hsz
    have ha : a.name ∉ names := hpre a (List.mem_cons_self a pre')
    have hpre' : ∀ e' ∈ pre', e'.name ∉ names :=
      fun e' he' => hpre e' (List.mem_cons_of_mem a he')
    simp only [List.cons_append, zipExtractEntries,
      extractEntryZip_nomatch maxSize a names ha, List.append_eq,
      ih e post hpre' hmem hsz]

/-- Every entry matching a requested name contributes its file to a
successful extraction (stream form). -/
theorem streamExtractEntries_ok_covers (maxSize : Nat) (names : List String) :
    ∀ (entries : List Entry) (r : List File),
      streamExtractEntries maxSize names entries = Except.ok r →
      ∀ e ∈ entries, e.name ∈ names → mkFile e ∈ r := by
  intro entries r h e he hname
  have hr := streamExtractEntries_ok_eq maxSize names entries r h
  subst hr
  clear h
  induction entries with
  | nil => exact absurd he (List.not_mem_nil _)
  | cons a rest ih =>
    simp only [extractSpec, List.mem_append]
    rcases List.mem_cons.mp he with h' | h'
    · subst h'
      left
      simp only [matchFiles, mkFile, List.mem_map]
      refine ⟨e.name, ?_, trivial⟩
      rw [List.mem_filter]
      exact ⟨hname, by simp⟩
    · right
      exact ih h'

/-- Same for the zip outer loop. -/
theorem zipExtractEntries_ok_covers (maxSize : Nat) (names : List String) :
    ∀ (entries : List Entry) (r : List File),
      zipExtractEntries maxSize names entries = Except.ok r →
      ∀ e ∈ entries, e.name ∈ names → mkFile e ∈ r := by
  intro entries r h e he hname
  have hr := zipExtractEntries_ok_eq maxSize names entries r h
  subst hr
  clear h
  induction entries with
  | nil => exact absurd he (List.not_mem_nil _)
  | cons a rest ih =>
    simp only [extractSpec, List.mem_append]
    rcases List.mem_cons.mp he with h' | h'
    · subst h'
      left
      simp only [matchFiles, mkFile, List.mem_map]
      refine ⟨e.name, ?_, trivial⟩
      rw [List.mem_filter]
      exact ⟨hname, by simp⟩
    · right
      exact ih h'

/-! Helper lemmas about the listing pipeline. -/

/-- Depth filtering drops entries in place: the listed files are the
kept entries, in reader order, projected to their metadata. -/
theorem listEntries_eq_filter (depth : Int) (entries : List Entry) :
    listEntries depth entries =
      (entries.filter fun e => !depthDrop depth e.name).map
        fun e => { Name := e.name, Size := e.size, Permissions := e.mode } := by
  induction entries with
  | nil => rfl
  | cons a rest ih =>
    simp only [listEntries] at ih ⊢
    cases hd : depthDrop depth a.name
    · simp [List.filterMap_cons, List.filter_cons, hd, ih]
    · simp [List.filterMap_cons, List.filter_cons, hd, ih]

/-- The pattern filter keeps an in-order subsequence of its input. -/
theorem filterLoop_sublist (env : Env) (inc exc : String) :
    ∀ (files filtered : List FileInfo),
      filterLoop env inc exc files = Except.ok filtered →
      filtered.Sublist files := by
  intro files
  induction files with
  | nil =>
    intro filtered h
    simp only [filterLoop] at h
    cases h
    exact List.Sublist.refl []
  | cons f rest ih =>
    intro filtered h
    simp only [filterLoop] at h
    split at h
    · exact Except.noConfusion h
    · rename_i im him
      split at h
      · exact Except.noConfusion h
      · rename_i em hem
        split at h
        · exact Except.noConfusion h
        · rename_i tail htail
          cases h
          split
          · exact List.Sublist.cons₂ f (ih tail htail)
          · exact List.Sublist.cons f (ih tail htail)

/-- A non-empty input with an invalid non-empty include pattern fails the
pattern filter with `InvalidPattern` (include side). -/
theorem filterLoop_invalid_inc (env : Env) (inc exc : String) (f : FileInfo)
    (rest : List FileInfo) (hinc : inc ≠ "") (hv : env.reValid inc = false) :
    filterLoop env inc exc (f :: rest) = Except.error .invalidIncludePat := by
  simp only [filterLoop, if_pos hinc, matchString, hv]
  rfl

/-- A non-empty input with a valid (or absent) include pattern and an
invalid non-empty exclude pattern fails with `InvalidPattern` (exclude
side). -/
theorem filterLoop_invalid_exc (env : Env) (inc exc : String) (f : FileInfo)
    (rest : List FileInfo) (hexc : exc ≠ "") (hv : env.reValid exc = false)
    (hinc : inc = "" ∨ env.reValid inc = true) :
    filterLoop env inc exc (f :: rest) = Except.error .invalidExcludePat := by
  rcases hinc with h | h
  · subst h
    simp only [filterLoop, ne_eq, not_true_eq_false, if_neg, if_pos hexc,
      matchString, hv]
    rfl
  · by_cases hinc' : inc = ""
    · subst hinc'
      simp only [filterLoop, ne_eq, not_true_eq_false, if_neg, if_pos hexc,
        matchString, hv]
      rfl
    · simp only [filterLoop, if_pos hinc', if_pos hexc, matchString, h, hv]
      rfl

/-- An unsupported suffix short-circuits the list dispatcher. -/
theorem dispatchList_unsupported (a : Archive) (env : Env) (path : String)
    (depth : Int) (h : hasSupportedSuffix path = false) :
    a.dispatchList env path depth = Except.error .unsupportedFormat := by
  simp only [hasSupportedSuffix, Bool.or_eq_false_iff] at h
  obtain ⟨⟨⟨⟨h1, h2⟩, h3⟩, h4⟩, h5⟩ := h
  simp [Archive.dispatchList, h1, h2, h3, h4, h5]

/-- An unsupported suffix short-circuits the extract dispatcher. -/
theorem dispatchExtract_unsupported (a : Archive) (env : Env) (path : String)
    (names : List String) (h : hasSupportedSuffix path = false) :
    a.dispatchExtract env path names = Except.error .unsupportedFormat := by
  simp only [hasSupportedSuffix, Bool.or_eq_false_iff] at h
  obtain ⟨⟨⟨⟨h1, h2⟩, h3⟩, h4⟩, h5⟩ := h
  simp [Archive.dispatchExtract, h1, h2, h3, h4, h5]

/-- With a supported suffix, a `securePath` failure propagates out of the
list dispatcher as the corresponding path error. -/
theorem dispatchList_pathError (a : Archive) (env : Env) (path : String)
    (depth : Int) (e : PathError) (hs : a.securePath env path = Except.error e)
    (hsup : hasSupportedSuffix path = true) :
    a.dispatchList env path depth = Except.error (.pathError e) := by
  by_cases c1 : goEndsWith path ".cpio"
  · simp [Archive.dispatchList, c1, Archive.cpioList, Archive.formatList, hs]
  · by_cases c2 : goEndsWith path ".tar.gz"
    · simp [Archive.dispatchList, c1, c2, Archive.tarGzList, Archive.formatList, hs]
    · by_cases c3 : goEndsWith path ".tar.bz2"
      · simp [Archive.dispatchList, c1, c2, c3, Archive.tarBz2List, Archive.formatList, hs]
      · by_cases c4 : goEndsWith path ".tar.xz"
        · simp [Archive.dispatchList, c1, c2, c3, c4, Archive.tarXzList, Archive.formatList, hs]
        · by_cases c5 : goEndsWith path ".zip"
          · simp [Archive.dispatchList, c1, c2, c3, c4, c5, Archive.zipList, Archive.formatList, hs]
          · exfalso
            simp [hasSupportedSuffix, c1, c2, c3, c4, c5] at hsup

/-- With a supported suffix, a `securePath` failure propagates out of the
extract dispatcher as the corresponding path error. -/
theorem dispatchExtract_pathError (a : Archive) (env : Env) (path : String)
    (names : List String) (e : PathError)
    (hs : a.securePath env path = Except.error e)
    (hsup : hasSupportedSuffix path = true) :
    a.dispatchExtract env path names = Except.error (.pathError e) := by
  by_cases c1 : goEndsWith path ".cpio"
  · simp [Archive.dispatchExtract, c1, Archive.cpioExtract, Archive.formatExtractStream, hs]
  · by_cases c2 : goEndsWith path ".tar.gz"
    · simp [Archive.dispatchExtract, c1, c2, Archive.tarGzExtract, Archive.formatExtractStream, hs]
    · by_cases c3 : goEndsWith path ".tar.bz2"
      · simp [Archive.dispatchExtract, c1, c2, c3, Archive.tarBz2Extract, Archive.formatExtractStream, hs]
      · by_cases c4 : goEndsWith path ".tar.xz"
        · simp [Archive.dispatchExtract, c1, c2, c3, c4, Archive.tarXzExtract, Archive.formatExtractStream, hs]
        · by_cases c5 : goEndsWith path ".zip"
          · simp [Archive.dispatchExtract, c1, c2, c3, c4, c5, Archive.zipExtract, hs]
          · exfalso
            simp [hasSupportedSuffix, c1, c2, c3, c4, c5] at hsup

/-- With a supported suffix, an accepted path and a readable archive, the
list dispatcher returns the depth-filtered entries. -/
theorem dispatchList_ok (a : Archive) (env : Env) (path : String) (depth : Int)
    (sp : String) (entries : List Entry) (hs : a.securePath env path = Except.ok sp)
    (ha : env.archives sp = some entries) (hsup : hasSupportedSuffix path = true) :
    a.dispatchList env path depth = Except.ok (listEntries depth entries) := by
  by_cases c1 : goEndsWith path ".cpio"
  · simp [Archive.dispatchList, c1, Archive.cpioList, Archive.formatList, hs, ha]
  · by_cases c2 : goEndsWith path ".tar.gz"
    · simp [Archive.dispatchList, c1, c2, Archive.tarGzList, Archive.formatList, hs, ha]
    · by_cases c3 : goEndsWith path ".tar.bz2"
      · simp [Archive.dispatchList, c1, c2, c3, Archive.tarBz2List, Archive.formatList, hs, ha]
      · by_cases c4 : goEndsWith path ".tar.xz"
        · simp [Archive.dispatchList, c1, c2, c3, c4, Archive.tarXzList, Archive.formatList, hs, ha]
        · by_cases c5 : goEndsWith path ".zip"
          · simp [Archive.dispatchList, c1, c2, c3, c4, c5, Archive.zipList, Archive.formatList, hs, ha]
          · exfalso
            simp [hasSupportedSuffix, c1, c2, c3, c4, c5] at hsup

/-- Inversion of a successful `ListArchiveFiles` call: the dispatched
entry list and the pattern-filtered list exist, the counters are their
lengths and the `min` of the effective limit, and `Files` is the prefix
of the filtered list of exactly the displayed length. -/
theorem listArchiveFiles_ok_spec (a : Archive) (env : Env)
    (args : ListArchiveFilesArgs) (r : ListArchiveFilesResult)
    (h : a.ListArchiveFiles env args = Except.ok r) :
    ∃ files filtered,
      a.dispatchList env args.Path args.Depth = Except.ok files ∧
      filterLoop env args.IncludePat args.ExcludePat files = Except.ok filtered ∧
      filtered.Sublist files ∧
      r.TotalFiles = (files.length : Int) ∧
      r.FilteredFiles = (filtered.length : Int) ∧
      r.DisplayedFiles =
        min (filtered.length : Int) (if args.Limit = 0 then 100 else args.Limit) ∧
      r.Files = filtered.take r.DisplayedFiles.toNat ∧
      (r.Files.length : Int) = r.DisplayedFiles ∧
      0 ≤ r.DisplayedFiles := by
  simp only [Archive.ListArchiveFiles] at h
  split at h
  · exact Except.noConfusion h
  · rename_i files hfiles
    split at h
    · exact Except.noConfusion h
    · rename_i filtered hfiltered
      set lim : Int := if args.Limit = 0 then 100 else args.Limit with hlim
      set cnt : Int := if lim < (filtered.length : Int) then lim
        else (filtered.length : Int) with hcnt
      have hc1 : cnt ≤ (filtered.length : Int) := by
        rw [hcnt]; split <;> omega
      have hcmin : cnt = min (filtered.length : Int) lim := by
        rw [hcnt]
        rcases lt_or_ge lim (filtered.length : Int) with hlt | hge
        · rw [if_pos hlt, min_eq_right (le_of_lt hlt)]
        · rw [if_neg (not_lt.mpr hge), min_eq_left hge]
      split at h
      · exact Except.noConfusion h
      · rename_i hnonneg
        cases h
        push_neg at hnonneg
        refine ⟨files, filtered, hfiles, hfiltered,
          filterLoop_sublist env args.IncludePat args.ExcludePat files filtered hfiltered,
          rfl, rfl, hcmin, rfl, ?_, hnonneg⟩
        simp only [List.length_take]
        have hc2 : cnt.toNat ≤ filtered.length := by omega
        rw [min_eq_left hc2]
        omega

/-- A requested entry whose stored payload is shorter than its declared
size makes the stream inner loop fail. -/
theorem extractEntryStream_short_not_ok (maxSize : Nat) (e : Entry) :
    ∀ names : List String, e.name ∈ names → e.data.length < e.size →
      ∀ fs, extractEntryStream maxSize e names (e.data.take e.size) ≠ Except.ok fs := by
  intro names
  induction names with
  | nil => intro h; exact absurd h (List.not_mem_nil _)
  | cons n rest ih =>
    intro hmem hshort fs h
    simp only [extractEntryStream] at h
    split at h
    · split at h
      · exact Except.noConfusion h
      · split at h
        · exact Except.noConfusion h
        · rename_i buf s' hrf
          simp only [readFull] at hrf
          split at hrf
          · rename_i hle
            simp only [List.length_take] at hle
            omega
          · exact Option.noConfusion hrf
    · rename_i hn
      have : e.name ∈ rest := by
        rcases List.mem_cons.mp hmem with h' | h'
        · exact absurd h' hn
        · exact h'
      exact ih this hshort fs h

/-- Same for the zip inner loop. -/
theorem extractEntryZip_short_not_ok (maxSize : Nat) (e : Entry) :
    ∀ names : List String, e.name ∈ names → e.data.length < e.size →
      ∀ fs, extractEntryZip maxSize e names ≠ Except.ok fs := by
  intro names
  induction names with
  | nil => intro h; exact absurd h (List.not_mem_nil _)
  | cons n rest ih =>
    intro hmem hshort fs h
    simp only [extractEntryZip] at h
    split at h
    · split at h
      · exact Except.noConfusion h
      · split at h
        · exact Except.noConfusion h
        · rename_i buf s' hrf
          simp only [readFull] at hrf
          split at hrf
          · rename_i hle
            omega
          · exact Option.noConfusion hrf
    · rename_i hn
      have : e.name ∈ rest := by
        rcases List.mem_cons.mp hmem with h' | h'
        · exact absurd h' hn
        · exact h'
      exact ih this hshort fs h

/-! Claim theorems. -/

/-- C1: the sandbox check of `securePath` is a plain string-prefix test,
so a resolved path that merely extends the root's name as a string — the
sibling directory `/work-evil` of the root `/work` — is accepted even
though it is not a descendant of the root, contradicting the claimed
invariant that every accepted path is a descendant of SandboxRoot. -/
theorem c1_securePath_accepts_sibling_dir :
    Archive.securePath { maxSize := 102400, Workdir := "/work" } idEnv
        "/work-evil/a.cpio" = Except.ok "/work-evil/a.cpio" ∧
      isDescendantOf "/work-evil/a.cpio" "/work" = false ∧
      idEnv.evalSymlinks "/work-evil/a.cpio" = some "/work-evil/a.cpio" := by
  refine ⟨by rfl, by rfl, by rfl⟩

/-- C5 (counterexample): `securePath` does not resolve a relative
candidate against the sandbox root; it fails on it, and with an error
that is neither `OutsideSandbox` nor `Unresolvable`. -/
theorem c5_relative_path_rejected :
    Archive.securePath { maxSize := 102400, Workdir := "/work" } idEnv "rel.cpio" =
        Except.error PathError.notAbsolute ∧
      PathError.notAbsolute ≠ PathError.outsideSandbox ∧
      PathError.notAbsolute ≠ PathError.unresolvable := by
  refine ⟨by rfl, by decide, by decide⟩

/-- C5 (amended): `securePath` rejects every non-absolute candidate with
a dedicated not-absolute error instead of resolving it relative to
SandboxRoot; for an absolute candidate the only failure modes are the
symlink-resolution error and the outside-sandbox error. -/
theorem c5_securePath_failure_modes (a : Archive) (env : Env) (p : String) :
    (goIsAbs p = false → a.securePath env p = Except.error .notAbsolute) ∧
    (goIsAbs p = true → ∀ e, a.securePath env p = Except.error e →
      e = .unresolvable ∨ e = .outsideSandbox) := by
  constructor
  · intro h
    simp [Archive.securePath, h]
  · intro habs e h
    simp only [Archive.securePath, habs] at h
    simp only [Bool.true_eq_false, if_false] at h
    split at h
    · cases h
      exact Or.inl rfl
    · split at h
      · cases h
        exact Or.inr rfl
      · exact Except.noConfusion h

/-- C5 (witness): concrete instances of both parts of the amended
statement. -/
theorem c5_securePath_failure_modes_witness :
    Archive.securePath { maxSize := 102400, Workdir := "/w" } idEnv "rel" =
        Except.error PathError.notAbsolute ∧
      (PathError.outsideSandbox = PathError.unresolvable ∨
        PathError.outsideSandbox = PathError.outsideSandbox) := by
  constructor
  · exact (c5_securePath_failure_modes { maxSize := 102400, Workdir := "/w" }
      idEnv "rel").1 (by rfl)
  · exact (c5_securePath_failure_modes { maxSize := 102400, Workdir := "/w" }
      idEnv "/x.cpio").2 (by rfl) PathError.outsideSandbox (by rfl)

/-- C6 (counterexample): construction stores `filepath.Abs(workdir)`
without resolving symlinks, so when the configured workdir `/sym` is a
symlink to `/real`, a candidate inside it resolves below `/real`, fails
the prefix test against the stored `/sym`, and is rejected — not
accepted as the claim states. -/
theorem c6_symlinked_workdir_rejected :
    (New "/" "/sym").Workdir = "/sym" ∧
      symEnv.evalSymlinks "/sym/a.cpio" = some "/real/a.cpio" ∧
      (New "/" "/sym").securePath symEnv "/sym/a.cpio" =
        Except.error PathError.outsideSandbox := by
  refine ⟨by rfl, by rfl, by rfl⟩

/-- C6 (amended): the stored root is the syntactically absolutized
workdir, not its symlink-resolved form; any candidate whose resolved
target does not carry that stored root as a prefix — in particular a
candidate inside a symlinked workdir — is rejected with the
outside-sandbox error. -/
theorem c6_workdir_not_symlink_resolved (cwd workdir : String) (env : Env)
    (p t : String) :
    (New cwd workdir).Workdir = goAbs cwd workdir ∧
    (New cwd workdir).maxSize = 102400 ∧
    (goIsAbs p = true → env.evalSymlinks (goClean p) = some t →
      goStartsWith t (goAbs cwd workdir) = false →
      (New cwd workdir).securePath env p = Except.error .outsideSandbox) := by
  refine ⟨rfl, rfl, ?_⟩
  intro h1 h2 h3
  simp [Archive.securePath, New, h1, h2, h3]

/-- C6 (witness): concrete instance of the amended statement at the
symlinked workdir `/sym`. -/
theorem c6_workdir_not_symlink_resolved_witness :
    (New "/" "/sym").Workdir = goAbs "/" "/sym" ∧
      (New "/" "/sym").securePath symEnv "/sym/a.cpio" =
        Except.error PathError.outsideSandbox := by
  constructor
  · exact (c6_workdir_not_symlink_resolved "/" "/sym" symEnv "/sym/a.cpio"
      "/real/a.cpio").1
  · exact (c6_workdir_not_symlink_resolved "/" "/sym" symEnv "/sym/a.cpio"
      "/real/a.cpio").2.2 (by rfl) (by rfl) (by rfl)

/-- C2: in every format's extraction loop (the four stream formats share
`streamExtractEntries`; zip uses `zipExtractEntries`), an oversized
requested entry prevents any success — no files are returned even when
small requested entries were processed earlier; when it is the first
requested entry encountered, the error is exactly `FileTooLarge` naming
it and its declared size; and on success every requested entry at or
below the limit was extracted. -/
theorem c2_size_limit_aborts_extraction (maxSize : Nat) (names : List String)
    (entries : List Entry) :
    ((∃ e ∈ entries, e.name ∈ names ∧ maxSize < e.size) →
      (∀ r, streamExtractEntries maxSize names entries ≠ Except.ok r) ∧
      (∀ r, zipExtractEntries maxSize names entries ≠ Except.ok r)) ∧
    (∀ (pre : List Entry) (e : Entry) (post : List Entry),
      entries = pre ++ e :: post → (∀ e' ∈ pre, e'.name ∉ names) →
      e.name ∈ names → maxSize < e.size →
      streamExtractEntries maxSize names entries =
        Except.error (.fileTooLarge e.name e.size) ∧
      zipExtractEntries maxSize names entries =
        Except.error (.fileTooLarge e.name e.size)) ∧
    (∀ r, streamExtractEntries maxSize names entries = Except.ok r →
      ∀ e ∈ entries, e.name ∈ names → e.size ≤ maxSize ∧ mkFile e ∈ r) ∧
    (∀ r, zipExtractEntries maxSize names entries = Except.ok r →
      ∀ e ∈ entries, e.name ∈ names → e.size ≤ maxSize ∧ mkFile e ∈ r) := by
  refine ⟨?_, ?_, ?_, ?_⟩
  · rintro ⟨e, he, hname, hsz⟩
    constructor
    · apply streamExtractEntries_not_ok_of_mem maxSize names entries e he
      intro fs hfs
      rw [extractEntryStream_tooLarge maxSize e names _ hname hsz] at hfs
      exact Except.noConfusion hfs
    · apply zipExtractEntries_not_ok_of_mem maxSize names entries e he
      intro fs hfs
      rw [extractEntryZip_tooLarge maxSize e names hname hsz] at hfs
      exact Except.noConfusion hfs
  · intro pre e post hsplit hpre hname hsz
    subst hsplit
    exact ⟨streamExtractEntries_tooLarge_first maxSize names pre e post hpre hname hsz,
      zipExtractEntries_tooLarge_first maxSize names pre e post hpre hname hsz⟩
  · intro r h e he hname
    refine ⟨?_, streamExtractEntries_ok_covers maxSize names entries r h e he hname⟩
    by_contra hle
    push_neg at hle
    apply streamExtractEntries_not_ok_of_mem maxSize names entries e he _ r h
    intro fs hfs
    rw [extractEntryStream_tooLarge maxSize e names _ hname hle] at hfs
    exact Except.noConfusion hfs
  · intro r h e he hname
    refine ⟨?_, zipExtractEntries_ok_covers maxSize names entries r h e he hname⟩
    by_contra hle
    push_neg at hle
    apply zipExtractEntries_not_ok_of_mem maxSize names entries e he _ r h
    intro fs hfs
    rw [extractEntryZip_tooLarge maxSize e names hname hle] at hfs
    exact Except.noConfusion hfs

/-- C2 (witness): a two-byte entry against a one-byte limit fails both
extraction loops with exactly the `FileTooLarge` error. -/
theorem c2_size_limit_aborts_extraction_witness :
    streamExtractEntries 1 ["big"]
        [{ name := "big", size := 2, mode := "m", data := [0, 0] }] =
      Except.error (.fileTooLarge "big" 2) ∧
    zipExtractEntries 1 ["big"]
        [{ name := "big", size := 2, mode := "m", data := [0, 0] }] =
      Except.error (.fileTooLarge "big" 2) :=
  (c2_size_limit_aborts_extraction 1 ["big"]
    [{ name := "big", size := 2, mode := "m", data := [0, 0] }]).2.1
    [] { name := "big", size := 2, mode := "m", data := [0, 0] } []
    (by rfl) (by simp) (by simp) (by decide)

/-- C8 (counterexample): requesting the same name twice does not yield
duplicate extracted files in the cpio format — the second matched read
finds the entry's stream consumed and fails the whole call. -/
theorem c8_duplicate_request_fails_stream :
    Archive.cpioExtract { maxSize := 102400, Workdir := "/w" } dupEnv
      "/w/a.cpio" ["a", "a"] = Except.error (.readEntryError "a") := by
  rfl

/-- C8 (amended): matching is exact string equality, and on success the
result is exactly one file per pair of an archive occurrence and a
matching requested occurrence, in archive order — so duplicate archive
names and duplicate requested names both multiply, and this is the zip
behaviour for every input; but in the stream formats a duplicated
requested name for a positive-size entry makes success impossible. -/
theorem c8_duplicate_matching (maxSize : Nat) (names : List String)
    (entries : List Entry) :
    (∀ r, streamExtractEntries maxSize names entries = Except.ok r →
      r = extractSpec names entries) ∧
    (∀ r, zipExtractEntries maxSize names entries = Except.ok r →
      r = extractSpec names entries) ∧
    (∀ (e : Entry) (pre post : List String), e ∈ entries →
      names = pre ++ e.name :: post → e.name ∉ pre → e.name ∈ post → 0 < e.size →
      ∀ r, streamExtractEntries maxSize names entries ≠ Except.ok r) := by
  refine ⟨streamExtractEntries_ok_eq maxSize names entries,
    zipExtractEntries_ok_eq maxSize names entries, ?_⟩
  intro e pre post he hsplit hpre hpost hpos
  subst hsplit
  exact streamExtractEntries_not_ok_of_mem maxSize (pre ++ e.name :: post) entries e he
    (extractEntryStream_dup_not_ok maxSize e pre post hpre hpost hpos)

/-- C8 (witness): a duplicated requested name yields two files from one
zip entry, and makes the stream loop fail on the same input. -/
theorem c8_duplicate_matching_witness :
    ([{ Name := "a", Size := 1, Permissions := "m", Content := [104] },
      { Name := "a", Size := 1, Permissions := "m", Content := [104] }] :
        List File) =
      extractSpec ["a", "a"] [{ name := "a", size := 1, mode := "m", data := [104] }] ∧
    streamExtractEntries 102400 ["a", "a"]
        [{ name := "a", size := 1, mode := "m", data := [104] }] ≠
      Except.ok [] := by
  constructor
  · exact (c8_duplicate_matching 102400 ["a", "a"]
      [{ name := "a", size := 1, mode := "m", data := [104] }]).2.1 _ (by rfl)
  · exact (c8_duplicate_matching 102400 ["a", "a"]
      [{ name := "a", size := 1, mode := "m", data := [104] }]).2.2
      { name := "a", size := 1, mode := "m", data := [104] } [] ["a"]
      (by simp) (by rfl) (by simp) (by simp) (by decide) []

/-- C10 (counterexample): a zip entry whose stored data is longer than
its declared size is extracted without error, truncated to the declared
size — the call does not fail on the disagreement. -/
theorem c10_zip_truncates_long_entry :
    (2 : Nat) ≠ 1 ∧
    ({ name := "f", size := 1, mode := "m", data := [104, 105] } : Entry).data.length = 2 ∧
    Archive.zipExtract { maxSize := 102400, Workdir := "/w" } truncEnv "/w/a.zip" ["f"] =
      Except.ok [{ Name := "f", Size := 1, Permissions := "m", Content := [104] }] := by
  refine ⟨by decide, by rfl, by rfl⟩

/-- C10 (amended): every file returned by a successful extraction, in
every format, has content of exactly its declared size, at most the
limit; an entry whose stored data is shorter than its declared size
fails when requested; but excess stored data beyond the declared size
does not fail — the zip loop returns the declared-size prefix. -/
theorem c10_content_matches_declared_size (maxSize : Nat) (names : List String)
    (entries : List Entry) :
    (∀ r, streamExtractEntries maxSize names entries = Except.ok r →
      ∀ f ∈ r, f.Content.length = f.Size ∧ f.Size ≤ maxSize) ∧
    (∀ r, zipExtractEntries maxSize names entries = Except.ok r →
      ∀ f ∈ r, f.Content.length = f.Size ∧ f.Size ≤ maxSize) ∧
    (∀ e : Entry, e.name ∈ names → e.data.length < e.size →
      ∀ fs, extractEntryStream maxSize e names (e.data.take e.size) ≠ Except.ok fs) ∧
    (∀ e : Entry, e.name ∈ names → e.data.length < e.size →
      ∀ fs, extractEntryZip maxSize e names ≠ Except.ok fs) :=
  ⟨streamExtractEntries_ok_mem maxSize names entries,
    zipExtractEntries_ok_mem maxSize names entries,
    fun e hmem hshort => extractEntryStream_short_not_ok maxSize e names hmem hshort,
    fun e hmem hshort => extractEntryZip_short_not_ok maxSize e names hmem hshort⟩

/-- C10 (witness): concrete instances — a successful one-entry stream
extraction yields one-byte content for the one-byte entry, and a
one-byte entry declaring three bytes cannot be read. -/
theorem c10_content_matches_declared_size_witness :
    (([104] : List UInt8).length = 1 ∧ 1 ≤ 102400) ∧
    extractEntryStream 5 { name := "g", size := 3, mode := "m", data := [1] }
        ["g"] (([1] : List UInt8).take 3) ≠ Except.ok [] := by
  constructor
  · exact (c10_content_matches_declared_size 102400 ["a"]
      [{ name := "a", size := 1, mode := "m", data := [104] }]).1
      [{ Name := "a", Size := 1, Permissions := "m", Content := [104] }] (by rfl)
      { Name := "a", Size := 1, Permissions := "m", Content := [104] } (by simp)
  · exact (c10_content_matches_declared_size 5 ["g"] []).2.2.1
      { name := "g", size := 3, mode := "m", data := [1] } (by simp) (by simp) []

/-- C3: every successful list call satisfies
`displayedFiles = min(filteredFiles, effective limit)` with limit 0
defaulting to 100, `files` is the prefix of the filtered sequence (an
in-order subsequence of the dispatched entries) of exactly that length,
and `totalFiles ≥ filteredFiles ≥ displayedFiles` with
`length files = displayedFiles`. -/
theorem c3_displayed_is_min (a : Archive) (env : Env)
    (args : ListArchiveFilesArgs) (r : ListArchiveFilesResult)
    (h : a.ListArchiveFiles env args = Except.ok r) :
    ∃ files filtered,
      a.dispatchList env args.Path args.Depth = Except.ok files ∧
      filterLoop env args.IncludePat args.ExcludePat files = Except.ok filtered ∧
      filtered.Sublist files ∧
      r.TotalFiles = (files.length : Int) ∧
      r.FilteredFiles = (filtered.length : Int) ∧
      r.DisplayedFiles =
        min (filtered.length : Int) (if args.Limit = 0 then 100 else args.Limit) ∧
      r.Files = filtered.take r.DisplayedFiles.toNat ∧
      (r.Files.length : Int) = r.DisplayedFiles ∧
      r.DisplayedFiles ≤ r.FilteredFiles ∧
      r.FilteredFiles ≤ r.TotalFiles := by
  obtain ⟨files, filtered, h1, h2, h3, h4, h5, h6, h7, h8, h9⟩ :=
    listArchiveFiles_ok_spec a env args r h
  refine ⟨files, filtered, h1, h2, h3, h4, h5, h6, h7, h8, ?_, ?_⟩
  · rw [h6, h5]
    exact min_le_left _ _
  · rw [h4, h5]
    exact_mod_cast h3.length_le

/-- C3 (witness): a concrete successful call on a two-entry archive with
the default limit. -/
theorem c3_displayed_is_min_witness :
    ∃ files filtered,
      Archive.dispatchList { maxSize := 102400, Workdir := "/w" } listEnv
          "/w/test.cpio" 0 = Except.ok files ∧
      filterLoop listEnv "" "" files = Except.ok filtered ∧
      filtered.Sublist files ∧
      (2 : Int) = (files.length : Int) ∧
      (2 : Int) = (filtered.length : Int) ∧
      (2 : Int) = min (filtered.length : Int) (if (0 : Int) = 0 then 100 else 0) ∧
      ([{ Name := "foo", Size := 0, Permissions := "d" },
        { Name := "foo/baar.txt", Size := 27, Permissions := "f" }] :
          List FileInfo) = filtered.take (Int.toNat 2) ∧
      ((2 : Nat) : Int) = (2 : Int) ∧
      (2 : Int) ≤ (2 : Int) ∧
      (2 : Int) ≤ (2 : Int) :=
  c3_displayed_is_min { maxSize := 102400, Workdir := "/w" } listEnv
    { Path := "/w/test.cpio", Depth := 0, Limit := 0, IncludePat := "", ExcludePat := "" }
    { TotalFiles := 2, FilteredFiles := 2, DisplayedFiles := 2,
      Files := [{ Name := "foo", Size := 0, Permissions := "d" },
        { Name := "foo/baar.txt", Size := 27, Permissions := "f" }] }
    (by rfl)

/-- C4 (counterexample): a sandbox-escaping path with an unsupported
suffix reports the unsupported-format error, not the outside-sandbox
error — the suffix dispatch runs before any path validation. -/
theorem c4_unsupported_before_sandbox :
    Archive.ListArchiveFiles { maxSize := 102400, Workdir := "/work" } idEnv
        { Path := "/evil/data.bin", Depth := 0, Limit := 0,
          IncludePat := "", ExcludePat := "" } =
      Except.error .unsupportedFormat ∧
    Archive.ExtractArchiveFiles { maxSize := 102400, Workdir := "/work" } idEnv
        "/evil/data.bin" ["x"] = Except.error .unsupportedFormat ∧
    idEnv.evalSymlinks "/evil/data.bin" = some "/evil/data.bin" ∧
    goStartsWith "/evil/data.bin" "/work" = false ∧
    ArchiveError.unsupportedFormat ≠ ArchiveError.pathError .outsideSandbox := by
  refine ⟨by rfl, by rfl, by rfl, by rfl, by decide⟩

/-- C4 (amended): format dispatch by suffix runs first; a path without a
supported suffix always yields the unsupported-format error, and for a
supported suffix the `securePath` check runs inside the format handler
and its failure propagates before any archive access. -/
theorem c4_dispatch_then_validate (a : Archive) (env : Env)
    (args : ListArchiveFilesArgs) (path : String) (names : List String) :
    (hasSupportedSuffix args.Path = false →
      a.ListArchiveFiles env args = Except.error .unsupportedFormat) ∧
    (hasSupportedSuffix path = false →
      a.ExtractArchiveFiles env path names = Except.error .unsupportedFormat) ∧
    (∀ e, hasSupportedSuffix args.Path = true →
      a.securePath env args.Path = Except.error e →
      a.ListArchiveFiles env args = Except.error (.pathError e)) ∧
    (∀ e, hasSupportedSuffix path = true →
      a.securePath env path = Except.error e →
      a.ExtractArchiveFiles env path names = Except.error (.pathError e)) := by
  refine ⟨?_, ?_, ?_, ?_⟩
  · intro h
    simp only [Archive.ListArchiveFiles,
      dispatchList_unsupported a env args.Path args.Depth h]
  · intro h
    simp only [Archive.ExtractArchiveFiles,
      dispatchExtract_unsupported a env path names h]
  · intro e hsup hs
    simp only [Archive.ListArchiveFiles,
      dispatchList_pathError a env args.Path args.Depth e hs hsup]
  · intro e hsup hs
    simp only [Archive.ExtractArchiveFiles,
      dispatchExtract_pathError a env path names e hs hsup]

/-- C4 (witness): concrete instances of all four parts of the amended
statement. -/
theorem c4_dispatch_then_validate_witness :
    Archive.ListArchiveFiles { maxSize := 1, Workdir := "/w" } idEnv
        { Path := "x.bin", Depth := 0, Limit := 0, IncludePat := "", ExcludePat := "" } =
      Except.error .unsupportedFormat ∧
    Archive.ExtractArchiveFiles { maxSize := 1, Workdir := "/w" } idEnv "x.bin" [] =
      Except.error .unsupportedFormat ∧
    Archive.ListArchiveFiles { maxSize := 1, Workdir := "/w" } idEnv
        { Path := "rel.cpio", Depth := 0, Limit := 0, IncludePat := "", ExcludePat := "" } =
      Except.error (.pathError .notAbsolute) ∧
    Archive.ExtractArchiveFiles { maxSize := 1, Workdir := "/w" } idEnv "rel.cpio" [] =
      Except.error (.pathError .notAbsolute) := by
  refine ⟨?_, ?_, ?_, ?_⟩
  · exact (c4_dispatch_then_validate { maxSize := 1, Workdir := "/w" } idEnv
      { Path := "x.bin", Depth := 0, Limit := 0, IncludePat := "", ExcludePat := "" }
      "x" []).1 (by rfl)
  · exact (c4_dispatch_then_validate { maxSize := 1, Workdir := "/w" } idEnv
      { Path := "x", Depth := 0, Limit := 0, IncludePat := "", ExcludePat := "" }
      "x.bin" []).2.1 (by rfl)
  · exact (c4_dispatch_then_validate { maxSize := 1, Workdir := "/w" } idEnv
      { Path := "rel.cpio", Depth := 0, Limit := 0, IncludePat := "", ExcludePat := "" }
      "x" []).2.2.1 .notAbsolute (by rfl) (by rfl)
  · exact (c4_dispatch_then_validate { maxSize := 1, Workdir := "/w" } idEnv
      { Path := "x", Depth := 0, Limit := 0, IncludePat := "", ExcludePat := "" }
      "rel.cpio" []).2.2.2 .notAbsolute (by rfl) (by rfl)

/-- C7 (counterexample): with an empty depth-filtered entry sequence, a
malformed include pattern is never compiled and the call succeeds with
an empty result instead of failing with `InvalidPattern`. -/
theorem c7_empty_archive_skips_compile :
    badPatEnv.reValid "(" = false ∧
    Archive.ListArchiveFiles { maxSize := 102400, Workdir := "/w" } badPatEnv
        { Path := "/w/a.cpio", Depth := 0, Limit := 0,
          IncludePat := "(", ExcludePat := "" } =
      Except.ok ⟨0, 0, 0, []⟩ := by
  refine ⟨by rfl, by rfl⟩

/-- C7 (amended): a malformed non-empty pattern fails the call with the
corresponding `InvalidPattern` error exactly when at least one entry
survives depth filtering — patterns are compiled per entry inside the
loop, so with an empty filtered sequence the call succeeds with an empty
result. -/
theorem c7_invalid_pattern_needs_entry (a : Archive) (env : Env)
    (args : ListArchiveFilesArgs) :
    (∀ f files, a.dispatchList env args.Path args.Depth = Except.ok (f :: files) →
      args.IncludePat ≠ "" → env.reValid args.IncludePat = false →
      a.ListArchiveFiles env args = Except.error .invalidIncludePat) ∧
    (∀ f files, a.dispatchList env args.Path args.Depth = Except.ok (f :: files) →
      args.ExcludePat ≠ "" → env.reValid args.ExcludePat = false →
      (args.IncludePat = "" ∨ env.reValid args.IncludePat = true) →
      a.ListArchiveFiles env args = Except.error .invalidExcludePat) ∧
    (a.dispatchList env args.Path args.Depth = Except.ok [] → 0 ≤ args.Limit →
      a.ListArchiveFiles env args = Except.ok ⟨0, 0, 0, []⟩) := by
  refine ⟨?_, ?_, ?_⟩
  · intro f files hdisp hinc hv
    simp only [Archive.ListArchiveFiles, hdisp,
      filterLoop_invalid_inc env args.IncludePat args.ExcludePat f files hinc hv]
  · intro f files hdisp hexc hv hinc
    simp only [Archive.ListArchiveFiles, hdisp,
      filterLoop_invalid_exc env args.IncludePat args.ExcludePat f files hexc hv hinc]
  · intro hdisp hlim
    simp only [Archive.ListArchiveFiles, hdisp, filterLoop]
    have h1 : ¬((if args.Limit = 0 then (100 : Int) else args.Limit) <
        ((([] : List FileInfo).length : Nat) : Int)) := by
      simp only [List.length_nil, Nat.cast_zero]
      split <;> omega
    rw [if_neg h1]
    rw [if_neg (by simp : ¬((((([] : List FileInfo).length : Nat)) : Int) < 0))]
    simp

/-- C7 (witness): concrete instances of all three parts of the amended
statement. -/
theorem c7_invalid_pattern_needs_entry_witness :
    Archive.ListArchiveFiles { maxSize := 1, Workdir := "/w" } nePatEnv
        { Path := "/w/b.cpio", Depth := 0, Limit := 0,
          IncludePat := "(", ExcludePat := "" } =
      Except.error .invalidIncludePat ∧
    Archive.ListArchiveFiles { maxSize := 1, Workdir := "/w" } nePatEnv
        { Path := "/w/b.cpio", Depth := 0, Limit := 0,
          IncludePat := "", ExcludePat := "(" } =
      Except.error .invalidExcludePat ∧
    Archive.ListArchiveFiles { maxSize := 1, Workdir := "/w" } badPatEnv
        { Path := "/w/a.cpio", Depth := 0, Limit := 0,
          IncludePat := "(", ExcludePat := "" } =
      Except.ok ⟨0, 0, 0, []⟩ := by
  refine ⟨?_, ?_, ?_⟩
  · exact (c7_invalid_pattern_needs_entry { maxSize := 1, Workdir := "/w" } nePatEnv
      { Path := "/w/b.cpio", Depth := 0, Limit := 0,
        IncludePat := "(", ExcludePat := "" }).1
      { Name := "x", Size := 0, Permissions := "m" } [] (by rfl) (by decide) (by rfl)
  · exact (c7_invalid_pattern_needs_entry { maxSize := 1, Workdir := "/w" } nePatEnv
      { Path := "/w/b.cpio", Depth := 0, Limit := 0,
        IncludePat := "", ExcludePat := "(" }).2.1
      { Name := "x", Size := 0, Permissions := "m" } [] (by rfl) (by decide) (by rfl)
      (Or.inl rfl)
  · exact (c7_invalid_pattern_needs_entry { maxSize := 1, Workdir := "/w" } badPatEnv
      { Path := "/w/a.cpio", Depth := 0, Limit := 0,
        IncludePat := "(", ExcludePat := "" }).2.2 (by rfl) (by decide)

/-- C9: an entry is dropped by depth filtering exactly when `depth > 0`
and its name, trimmed of leading and trailing slashes, splits into more
than `depth` slash-delimited segments; `depth = 0` (and any non-positive
depth) keeps everything; and `totalFiles` counts the dispatched entries
after depth filtering, before pattern filtering. -/
theorem c9_depth_segments (d : Int) (entries : List Entry) :
    (listEntries d entries =
      (entries.filter fun e =>
        !(decide (0 < d) &&
          decide (d < ((goSplitSlash (goTrimSlash e.name)).length : Int)))).map
        fun e => { Name := e.name, Size := e.size, Permissions := e.mode }) ∧
    (d ≤ 0 → listEntries d entries =
      entries.map fun e => { Name := e.name, Size := e.size, Permissions := e.mode }) ∧
    (∀ (a : Archive) (env : Env) (args : ListArchiveFilesArgs)
        (r : ListArchiveFilesResult),
      a.ListArchiveFiles env args = Except.ok r →
      ∃ files, a.dispatchList env args.Path args.Depth = Except.ok files ∧
        r.TotalFiles = (files.length : Int)) ∧
    (∀ (a : Archive) (env : Env) (path sp : String) (es : List Entry),
      hasSupportedSuffix path = true → a.securePath env path = Except.ok sp →
      env.archives sp = some es →
      a.dispatchList env path d = Except.ok (listEntries d es)) := by
  refine ⟨listEntries_eq_filter d entries, ?_, ?_, ?_⟩
  · intro hd
    rw [listEntries_eq_filter]
    have hall : ∀ e ∈ entries, (!depthDrop d e.name) = true := by
      intro e _
      simp [depthDrop, not_lt.mpr hd]
    rw [List.filter_eq_self.mpr hall]
  · intro a env args r h
    obtain ⟨files, filtered, h1, _, _, h4, _⟩ := listArchiveFiles_ok_spec a env args r h
    exact ⟨files, h1, h4⟩
  · intro a env path sp es hsup hs ha
    exact dispatchList_ok a env path d sp es hs ha hsup

/-- C9 (witness): concrete instances — depth 0 keeps a nested name, a
concrete call's `totalFiles` counts the dispatched entries, and the
dispatcher returns the depth-filtered entries. -/
theorem c9_depth_segments_witness :
    (listEntries 0 [{ name := "foo/bar", size := 5, mode := "m", data := [] }] =
      [{ Name := "foo/bar", Size := 5, Permissions := "m" }]) ∧
    (∃ files, Archive.dispatchList { maxSize := 102400, Workdir := "/w" } listEnv
        "/w/test.cpio" 0 = Except.ok files ∧ (2 : Int) = (files.length : Int)) ∧
    (Archive.dispatchList { maxSize := 102400, Workdir := "/w" } listEnv
        "/w/test.cpio" 1 = Except.ok (listEntries 1
          [{ name := "foo", size := 0, mode := "d", data := [] },
           { name := "foo/baar.txt", size := 27, mode := "f", data := [] }])) := by
  refine ⟨?_, ?_, ?_⟩
  · exact (c9_depth_segments 0
      [{ name := "foo/bar", size := 5, mode := "m", data := [] }]).2.1 (by decide)
  · exact (c9_depth_segments 0 []).2.2.1 { maxSize := 102400, Workdir := "/w" } listEnv
      { Path := "/w/test.cpio", Depth := 0, Limit := 0, IncludePat := "", ExcludePat := "" }
      { TotalFiles := 2, FilteredFiles := 2, DisplayedFiles := 2,
        Files := [{ Name := "foo", Size := 0, Permissions := "d" },
          { Name := "foo/baar.txt", Size := 27, Permissions := "f" }] }
      (by rfl)
  · exact (c9_depth_segments 1 []).2.2.2 { maxSize := 102400, Workdir := "/w" } listEnv
      "/w/test.cpio" "/w/test.cpio"
      [{ name := "foo", size := 0, mode := "d", data := [] },
       { name := "foo/baar.txt", size := 27, mode := "f", data := [] }]
      (by rfl) (by rfl) (by rfl)

end MCPArchive
